import Mathlib

/-!
Verification development for the spec-skills-generator repository.

Two tools are embedded shallowly:

1. The specification-drift comparator
   (src/skills/generate/references/check-spec-drift-example.py): texts are
   modelled as lists of characters, files read from disk are modelled as
   Option-valued fields of an environment structure, and the fallible main
   routine is modelled in the Except monad.  Regular-expression searches of
   the source are compiled by hand into deterministic character-list
   matchers (each fixed pattern of the source is deterministic: every
   quantified subpattern is followed by a character outside its class, so
   greedy maximal munch never backtracks).

2. The project-structure discovery tool
   (src/skills/spec-skills-generator/scripts/discover_project.py): the
   filesystem is modelled as a list of entries, each a relative path (list
   of component names) plus a directory flag; pathlib traversals (iterdir,
   rglob) become filters of that list, and the list's order models the
   enumeration order of the filesystem.

Python strings are modelled as List Char.  The whitespace class used by
str.strip and by the regular-expression class backslash-s is modelled by
its ASCII part (space, tab, newline, carriage return, vertical tab, form
feed); all documents the tool consumes are ASCII-conventional markdown, and
none of the verified properties depends on non-ASCII whitespace.
-/

/-- ASCII whitespace, the characters stripped by Python str.strip and
matched by the regex whitespace class. -/
def isPySpace (c : Char) : Bool :=
  c = ' ' || c = '\t' || c = '\n' || c = '\r' || c = '\x0b' || c = '\x0c'

/-- Python str.strip: drop whitespace from both ends. -/
def pyStrip (cs : List Char) : List Char :=
  ((cs.dropWhile isPySpace).reverse.dropWhile isPySpace).reverse

/-- Python str.splitlines restricted to the newline terminator: empty text
gives no lines, and a trailing newline does not open a final empty line. -/
def splitLines : List Char → List (List Char)
  | [] => []
  | c :: cs =>
    if c = '\n' then [] :: splitLines cs
    else
      match splitLines cs with
      | [] => [[c]]
      | l :: rest => (c :: l) :: rest

/-- The join of a list of texts with a newline separator, as in
a Python newline-string join call. -/
def joinNL : List (List Char) → List Char
  | [] => []
  | [t] => t
  | t :: rest => t ++ '\n' :: joinNL rest

/-- Python substring membership test: needle occurs contiguously in hay. -/
def containsSub (needle : List Char) : List Char → Bool
  | [] => needle.isEmpty
  | c :: t => needle.isPrefixOf (c :: t) || containsSub needle t

/-- Python replace of every occurrence of the three-character substring
dot-p-y by the empty string, scanning left to right. -/
def removePy : List Char → List Char
  | '.' :: 'p' :: 'y' :: rest => removePy rest
  | c :: rest => c :: removePy rest
  | [] => []

/-- The lenient name-coverage check _find_missing_in_spec of the drift
comparator: a name is missing when the name with the substring dot-p-y
removed is not a substring of the newline-join of the spec texts. -/
def find_missing_in_spec (names : List (List Char)) (spec_texts : List (List Char)) :
    List (List Char) :=
  let combined := joinNL spec_texts
  names.filter (fun name => !(containsSub (removePy name) combined))

/-- Gregorian leap year, as in Python datetime. -/
def isLeap (y : Nat) : Bool :=
  (y % 4 = 0 && y % 100 ≠ 0) || y % 400 = 0

/-- Days in a month of the proleptic Gregorian calendar. -/
def daysInMonth (y m : Nat) : Nat :=
  if m = 2 then (if isLeap y then 29 else 28)
  else if m = 4 || m = 6 || m = 9 || m = 11 then 30
  else 31

/-- Days before January 1 of year y, counting from year 1 (CPython
datetime internals). -/
def daysBeforeYear (y : Nat) : Nat :=
  365 * (y - 1) + (y - 1) / 4 - (y - 1) / 100 + (y - 1) / 400

/-- Days in year y before the first day of month m. -/
def daysBeforeMonth (y m : Nat) : Nat :=
  ((List.range (m - 1)).map (fun i => daysInMonth y (i + 1))).sum

/-- Proleptic Gregorian ordinal of a date, day 1 being January 1 of year 1
(CPython date.toordinal). -/
def toOrdinal (y m d : Nat) : Nat :=
  daysBeforeYear y + daysBeforeMonth y m + d

/-- Microseconds in one day. -/
def dayMicro : Int := 86400000000

/-- The datetime value strptime builds for a date at midnight, measured in
microseconds on the proleptic Gregorian ordinal scale. -/
def dtMicro (y m d : Nat) : Int :=
  (toOrdinal y m d : Int) * dayMicro

/-- Validity of a calendar date as checked by strptime with the
year-month-day format: datetime requires year at least 1 (the four-digit
match bounds it by 9999) and a day within the month. -/
def validDate (y m d : Nat) : Prop :=
  1 ≤ y ∧ 1 ≤ m ∧ m ≤ 12 ∧ 1 ≤ d ∧ d ≤ daysInMonth y m

instance (y m d : Nat) : Decidable (validDate y m d) := by
  unfold validDate; infer_instance

/-- Numeric value of an ASCII digit character. -/
def digitVal (c : Char) : Nat := c.toNat - 48

/-- Attempt, at the current position, the match of the pattern
of _parse_last_verified_date: the literal text of a last-verified label,
optional whitespace, then four digits, dash, two digits, dash, two digits.
Returns the year, month and day read from the captured group.  The
whitespace star is greedy and deterministic since a digit is never
whitespace. -/
def matchLVAt (cs : List Char) : Option (Nat × Nat × Nat) :=
  if ("Last verified:".data).isPrefixOf cs then
    match (cs.drop 14).dropWhile isPySpace with
    | y1 :: y2 :: y3 :: y4 :: s1 :: m1 :: m2 :: s2 :: d1 :: d2 :: _ =>
      if y1.isDigit && y2.isDigit && y3.isDigit && y4.isDigit && s1 = '-' &&
         m1.isDigit && m2.isDigit && s2 = '-' && d1.isDigit && d2.isDigit then
        some (1000 * digitVal y1 + 100 * digitVal y2 + 10 * digitVal y3 + digitVal y4,
              10 * digitVal m1 + digitVal m2,
              10 * digitVal d1 + digitVal d2)
      else none
    | _ => none
  else none

/-- re.search for the last-verified pattern: the leftmost match wins, the
text is scanned position by position. -/
def searchLV : List Char → Option (Nat × Nat × Nat)
  | [] => none
  | c :: cs =>
    match matchLVAt (c :: cs) with
    | some r => some r
    | none => searchLV cs

/-- Errors a drift-comparator run can abort with: a file read of a missing
required document, or a strptime failure on an invalid calendar date. -/
inductive DriftError where
  | readError
  | valueError
deriving DecidableEq

/-- The function _parse_last_verified_date: the first match of the
last-verified pattern is converted by strptime, which raises on an invalid
calendar date; with no match the function returns no date. -/
def parse_last_verified_date (text : List Char) : Except DriftError (Option Int) :=
  match searchLV text with
  | none => .ok none
  | some (y, m, d) =>
    if validDate y m d then .ok (some (dtMicro y m d)) else .error .valueError

/-- The freshness comparison of the main routine: warn when the date is
absent, or when now minus the verified datetime exceeds the thirty-day
threshold. -/
def freshnessWarn (now : Int) (lv : Option Int) : Bool :=
  match lv with
  | none => true
  | some t => decide (now - t > 30 * dayMicro)

/-- A token of one of the fixed section regular expressions: a literal
run, or one-or-more whitespace. -/
inductive PatTok where
  | lit (s : List Char)
  | ws

/-- Match a token pattern at the current position.  Deterministic for the
source's patterns, whose whitespace runs are always followed by a
non-whitespace literal character. -/
def matchToks : List PatTok → List Char → Bool
  | [], _ => true
  | .lit s :: rest, cs => s.isPrefixOf cs && matchToks rest (cs.drop s.length)
  | .ws :: rest, cs =>
    let w := cs.takeWhile isPySpace
    decide (w.length ≠ 0) && matchToks rest (cs.drop w.length)

/-- re.search of a token pattern in a line: some position matches. -/
def searchToks (toks : List PatTok) : List Char → Bool
  | [] => matchToks toks []
  | c :: cs => matchToks toks (c :: cs) || searchToks toks cs

/-- Character class of the markdown separator-row pattern: whitespace,
dash or pipe. -/
def isSepChar (c : Char) : Bool := isPySpace c || c = '-' || c = '|'

/-- The separator-row regular expression of _count_table_rows: a full
match of pipe, one or more characters of the separator class, pipe. -/
def isSepRow : List Char → Bool
  | [] => false
  | c :: rest =>
    (c == '|') && decide (2 ≤ rest.length) && (rest.getLast? == some '|') &&
      rest.dropLast.all isSepChar

/-- A line starts with a pipe character. -/
def startsPipe (cs : List Char) : Bool := cs.head? = some '|'

/-- The scanning loop of _count_table_rows over the lines of the text,
carrying the in-section flag, the in-table flag and the row count. -/
def ctrLoop (sectionP stopP : List Char → Bool) :
    List (List Char) → Bool → Bool → Nat → Nat
  | [], _, _, count => count
  | line :: rest, in_section, in_table, count =>
    if in_section = false then
      ctrLoop sectionP stopP rest (if sectionP line then true else in_section) in_table count
    else if stopP line then count
    else
      let stripped := pyStrip line
      if startsPipe stripped && !isSepRow stripped then
        if in_table then ctrLoop sectionP stopP rest in_section in_table (count + 1)
        else ctrLoop sectionP stopP rest in_section true count
      else if in_table && !startsPipe stripped then count
      else ctrLoop sectionP stopP rest in_section in_table count

/-- The generic helper _count_table_rows: split the text into lines, find
the section start, and count table rows after the header row.  The two
regular-expression arguments of the source are modelled as line
predicates. -/
def count_table_rows (text : List Char) (sectionP stopP : List Char → Bool) : Nat :=
  ctrLoop sectionP stopP (splitLines text) false false 0

/-- Section pattern: four hashes, API Endpoint Integration. -/
def apiEndpointPat : List PatTok :=
  [.lit "####".data, .ws, .lit "API".data, .ws, .lit "Endpoint".data, .ws,
   .lit "Integration".data]

/-- Section pattern: four hashes, Monthly Rank Batch. -/
def monthlyRankPat : List PatTok :=
  [.lit "####".data, .ws, .lit "Monthly".data, .ws, .lit "Rank".data, .ws, .lit "Batch".data]

/-- Stop pattern: three hashes, section number 3.2. -/
def sec32Pat : List PatTok := [.lit "###".data, .ws, .lit "3.2".data]

/-- Section pattern: three hashes, 3.2 Shared Layer Modules. -/
def sharedLayerPat : List PatTok :=
  [.lit "###".data, .ws, .lit "3.2".data, .ws, .lit "Shared".data, .ws, .lit "Layer".data,
   .ws, .lit "Modules".data]

/-- Stop pattern: three hashes, section number 3.3. -/
def sec33Pat : List PatTok := [.lit "###".data, .ws, .lit "3.3".data]

/-- Section pattern: three hashes, 3.3 DynamoDB. -/
def dynamoPat : List PatTok :=
  [.lit "###".data, .ws, .lit "3.3".data, .ws, .lit "DynamoDB".data]

/-- Stop pattern: three hashes, section number 3.4. -/
def sec34Pat : List PatTok := [.lit "###".data, .ws, .lit "3.4".data]

/-- Spec-side Lambda function count: rows of the API endpoint table plus
rows of the monthly batch table of the overview document. -/
def count_spec_lambda_functions (overview_text : List Char) : Nat :=
  count_table_rows overview_text (searchToks apiEndpointPat) (searchToks monthlyRankPat)
  + count_table_rows overview_text (searchToks monthlyRankPat) (searchToks sec32Pat)

/-- Spec-side shared layer module count. -/
def count_spec_layer_modules (overview_text : List Char) : Nat :=
  count_table_rows overview_text (searchToks sharedLayerPat) (searchToks sec33Pat)

/-- Spec-side DynamoDB table count. -/
def count_spec_dynamodb_tables (overview_text : List Char) : Nat :=
  count_table_rows overview_text (searchToks dynamoPat) (searchToks sec34Pat)

/-- Word character of the regex word class, ASCII part. -/
def wordChar (c : Char) : Bool := c.isAlphanum || c = '_'

/-- Attempt, at the current position, the resource-block pattern of the
terraform count helpers: the literal word resource, whitespace, the quoted
resource type, whitespace, then a quoted word which is the captured name.
Returns the total matched length and the captured name.  Each greedy run
is followed by a character outside its class, so the match is
deterministic. -/
def matchResourceAt (ty : List Char) (cs : List Char) : Option (Nat × List Char) :=
  if ("resource".data).isPrefixOf cs then
    let r1 := cs.drop 8
    let w1 := r1.takeWhile isPySpace
    if w1.length = 0 then none else
    match r1.drop w1.length with
    | '"' :: r3 =>
      if ty.isPrefixOf r3 then
        match r3.drop ty.length with
        | '"' :: r4 =>
          let w2 := r4.takeWhile isPySpace
          if w2.length = 0 then none else
          match r4.drop w2.length with
          | '"' :: r6 =>
            let nm := r6.takeWhile wordChar
            if nm.length = 0 then none else
            match r6.drop nm.length with
            | '"' :: _ =>
              some (8 + w1.length + 1 + ty.length + 1 + w2.length + 1 + nm.length + 1, nm)
            | _ => none
          | _ => none
        | _ => none
      else none
    | _ => none
  else none

/-- Scanner of the resource-block findall with an explicit iteration
bound: every step consumes at least one character, so a bound equal to the
text length never runs out before the text does. -/
def findResourcesAux (ty : List Char) : Nat → List Char → List (List Char)
  | 0, _ => []
  | _, [] => []
  | fuel + 1, c :: rest =>
    match matchResourceAt ty (c :: rest) with
    | some (n, nm) => nm :: findResourcesAux ty fuel (rest.drop (n - 1))
    | none => findResourcesAux ty fuel rest

/-- re.findall of the resource-block pattern: scan left to right, collect
each captured name, and resume after the end of each match. -/
def findResources (ty : List Char) (cs : List Char) : List (List Char) :=
  findResourcesAux ty cs.length cs

/-- Attempt, at the current position, the API route heading pattern of the
main routine: three hashes, whitespace, the literal one-dot, digits,
whitespace, POST or GET, whitespace, slash.  Returns the matched length. -/
def matchApiAt (cs : List Char) : Option Nat :=
  if ("###".data).isPrefixOf cs then
    let r1 := cs.drop 3
    let w1 := r1.takeWhile isPySpace
    if w1.length = 0 then none else
    match r1.drop w1.length with
    | '1' :: '.' :: r3 =>
      let ds := r3.takeWhile Char.isDigit
      if ds.length = 0 then none else
      let r4 := r3.drop ds.length
      let w2 := r4.takeWhile isPySpace
      if w2.length = 0 then none else
      let r5 := r4.drop w2.length
      let kwLen : Nat :=
        if ("POST".data).isPrefixOf r5 then 4
        else if ("GET".data).isPrefixOf r5 then 3
        else 0
      if kwLen = 0 then none else
      let r6 := r5.drop kwLen
      let w3 := r6.takeWhile isPySpace
      if w3.length = 0 then none else
      match r6.drop w3.length with
      | '/' :: _ => some (3 + w1.length + 2 + ds.length + w2.length + kwLen + w3.length + 1)
      | _ => none
    | _ => none
  else none

/-- Scanner of the API route heading findall with an explicit iteration
bound, sufficient for the same reason as the resource scanner's. -/
def apiRouteMatchesAux : Nat → List Char → Nat
  | 0, _ => 0
  | _, [] => 0
  | fuel + 1, c :: rest =>
    match matchApiAt (c :: rest) with
    | some n => 1 + apiRouteMatchesAux fuel (rest.drop (n - 1))
    | none => apiRouteMatchesAux fuel rest

/-- Count of re.findall matches of the API route heading pattern in the
technical document. -/
def apiRouteMatches (cs : List Char) : Nat :=
  apiRouteMatchesAux cs.length cs

/-- The ignored file names of the drift comparator. -/
def IGNORED_FILES : List (List Char) := ["__init__.py".data]

/-- The ignored directory names of the drift comparator. -/
def IGNORED_DIRS : List (List Char) := ["__pycache__".data, "__init__.py".data]

/-- The state of the world a drift-comparator run reads: the five files it
opens (absent files abort the read), the directory listing of the Lambda
functions directory as name and directory-flag pairs, the glob result of
the layer directory, and the current wall-clock datetime in microseconds.
The two directory enumerations are modelled as plain lists: the embedding
covers runs in which those directories exist. -/
structure DriftEnv where
  overview : Option (List Char)
  business : Option (List Char)
  technical : Option (List Char)
  dynamodb_tf : Option (List Char)
  api_gateway_tf : Option (List Char)
  lambdaEntries : List (List Char × Bool)
  layerGlob : List (List Char)
  now : Int

/-- Ordered insertion sort by the lexicographic order on character lists,
the order Python sorted uses on strings (code-point comparison). -/
def sortLex (l : List (List Char)) : List (List Char) :=
  List.insertionSort (· ≤ ·) l

/-- A file read: a missing file raises, modelled as a read error. -/
def req (o : Option (List Char)) : Except DriftError (List Char) :=
  match o with
  | none => .error .readError
  | some s => .ok s

/-- _count_lambda_dirs: sorted names of the subdirectories of the Lambda
directory that are not ignored. -/
def count_lambda_dirs (env : DriftEnv) : List (List Char) :=
  sortLex ((env.lambdaEntries.filter
    (fun e => e.2 && !(IGNORED_DIRS.contains e.1))).map Prod.fst)

/-- _count_layer_modules: sorted python file names of the layer directory
that are not ignored. -/
def count_layer_modules (env : DriftEnv) : List (List Char) :=
  sortLex (env.layerGlob.filter (fun n => !(IGNORED_FILES.contains n)))

/-- The main routine of the drift comparator, written as the source's
sequential chain of fallible reads, counts, coverage checks and freshness
checks.  The result carries the aggregate warning count together with the
returned result code; an uncaught read or parse failure is the error case.
The second read of each spec document in the freshness loop is kept to
mirror the source. -/
def mainResult (env : DriftEnv) : Except DriftError (Nat × Nat) :=
  match req env.overview with
  | .error e => .error e
  | .ok overview_text =>
  match req env.technical with
  | .error e => .error e
  | .ok technical_text =>
  let lambda_dirs := count_lambda_dirs env
  let layer_modules := count_layer_modules env
  match req env.dynamodb_tf with
  | .error e => .error e
  | .ok dtf =>
  let dynamodb_tables := findResources "aws_dynamodb_table".data dtf
  match req env.api_gateway_tf with
  | .error e => .error e
  | .ok atf =>
  let api_routes := findResources "aws_apigatewayv2_route".data atf
  let spec_lambda_count := count_spec_lambda_functions overview_text
  let spec_layer_count := count_spec_layer_modules overview_text
  let spec_dynamodb_count := count_spec_dynamodb_tables overview_text
  let warnings : Nat := 0
  let warnings := if lambda_dirs.length = spec_lambda_count then warnings else warnings + 1
  let warnings := if layer_modules.length = spec_layer_count then warnings else warnings + 1
  let warnings :=
    if dynamodb_tables.length = spec_dynamodb_count then warnings else warnings + 1
  let spec_api_count := apiRouteMatches technical_text
  let warnings := if api_routes.length = spec_api_count then warnings else warnings + 1
  let missing_lambdas := find_missing_in_spec lambda_dirs [technical_text, overview_text]
  let missing_modules := find_missing_in_spec layer_modules [technical_text, overview_text]
  let warnings := warnings + missing_lambdas.length + missing_modules.length
  match req env.overview with
  | .error e => .error e
  | .ok otext =>
  match parse_last_verified_date otext with
  | .error e => .error e
  | .ok od =>
  let warnings := warnings + (if freshnessWarn env.now od then 1 else 0)
  match req env.business with
  | .error e => .error e
  | .ok btext =>
  match parse_last_verified_date btext with
  | .error e => .error e
  | .ok bd =>
  let warnings := warnings + (if freshnessWarn env.now bd then 1 else 0)
  match req env.technical with
  | .error e => .error e
  | .ok ttext =>
  match parse_last_verified_date ttext with
  | .error e => .error e
  | .ok td =>
  let warnings := warnings + (if freshnessWarn env.now td then 1 else 0)
  .ok (warnings, if 0 < warnings then 1 else 0)

deriving instance DecidableEq for Except


/-- A filesystem entry of the discovery tool's model: the path relative to
the scanned root as a list of component names, and a directory flag.  A
list of entries models the tree; the order of the list models the
enumeration order of the filesystem traversals. -/
structure FsEntry where
  path : List (List Char)
  isDir : Bool
deriving DecidableEq

/-- The extension-to-language table of discover_source_code, in its
insertion order. -/
def languageExtensions : List (List Char × List Char) :=
  [(".py".data, "Python".data),
   (".js".data, "JavaScript".data),
   (".ts".data, "TypeScript".data),
   (".tsx".data, "TypeScript (React)".data),
   (".jsx".data, "JavaScript (React)".data),
   (".go".data, "Go".data),
   (".rs".data, "Rust".data),
   (".java".data, "Java".data),
   (".rb".data, "Ruby".data),
   (".php".data, "PHP".data),
   (".cs".data, "C#".data),
   (".swift".data, "Swift".data),
   (".kt".data, "Kotlin".data)]

/-- The ignored directory names of discover_source_code. -/
def ignoreDirs : List (List Char) :=
  [".git".data, "node_modules".data, "__pycache__".data, ".venv".data, "venv".data,
   ".tox".data, ".mypy_cache".data, ".pytest_cache".data, "dist".data, "build".data,
   ".next".data, ".nuxt".data, "target".data, "vendor".data, ".terraform".data,
   "coverage".data, ".coverage".data, "htmlcov".data, "egg-info".data]

/-- The final component of an entry's path, pathlib's name attribute. -/
def entryName (e : FsEntry) : List Char := e.path.getLastD []

/-- The entries the root's iterdir yields: paths of one component. -/
def topLevel (fs : List FsEntry) : List FsEntry :=
  fs.filter (fun e => e.path.length = 1)

/-- Insertion sort of entries by name, modelling the sorted call on the
iterdir result (paths of a common parent compare by their final name). -/
def sortByName (l : List FsEntry) : List FsEntry :=
  List.insertionSort (fun a b => entryName a ≤ entryName b) l

/-- The has-source test of discover_source_code: some recognized extension
has a nonempty rglob under the top-level directory.  rglob matches any
entry, file or directory, whose name ends with the extension. -/
def hasSourceUnder (fs : List FsEntry) (dname : List Char) : Bool :=
  languageExtensions.any (fun p =>
    fs.any (fun e =>
      e.path.head? == some dname && decide (2 ≤ e.path.length) &&
        p.1.isSuffixOf (entryName e)))

/-- The top-level directory filter of discover_source_code: a directory,
not dot-initial, not ignored, containing source. -/
def srcDirFilter (fs : List FsEntry) (e : FsEntry) : Bool :=
  e.isDir && !((entryName e).head? == some '.') &&
    !(ignoreDirs.contains (entryName e)) && hasSourceUnder fs (entryName e)

/-- The source_dirs accumulator of discover_source_code, in iteration
order. -/
def sourceDirsList (fs : List FsEntry) : List (List Char) :=
  ((sortByName (topLevel fs)).filter (srcDirFilter fs)).map entryName

/-- The textual relative path of an entry, components joined by a slash. -/
def joinPath : List (List Char) → List Char
  | [] => []
  | [c] => c
  | c :: rest => c ++ '/' :: joinPath rest

/-- str of the path of an entry relative to the root. -/
def relStr (e : FsEntry) : List Char := joinPath e.path

/-- The ignored-parts test of discover_source_code: some component of the
absolute path, the root's own components included, is an ignored name. -/
def ignoredParts (rootParts : List (List Char)) (e : FsEntry) : Bool :=
  (rootParts ++ e.path).any (fun part => ignoreDirs.contains part)

/-- The entry-point filename patterns of discover_source_code. -/
def entryPointPatterns : List (List Char) :=
  ["main.py".data, "app.py".data, "index.py".data, "handler.py".data, "wsgi.py".data,
   "index.js".data, "index.ts".data, "app.js".data, "app.ts".data, "server.js".data,
   "server.ts".data, "main.go".data, "main.rs".data, "Main.java".data, "Program.cs".data,
   "manage.py".data, "setup.py".data]

/-- The entry_points accumulator of discover_source_code: for each pattern
in order, every non-ignored entry of that exact name, at any depth, as a
relative path string. -/
def entryPointsList (rootParts : List (List Char)) (fs : List FsEntry) : List (List Char) :=
  entryPointPatterns.flatMap (fun pat =>
    (fs.filter (fun e => entryName e == pat && !ignoredParts rootParts e)).map relStr)

/-- The shared-module directory names of discover_source_code. -/
def sharedPatterns : List (List Char) :=
  ["lib".data, "shared".data, "common".data, "utils".data, "helpers".data, "core".data,
   "lambda_layer".data, "layer".data, "packages".data, "internal".data]

/-- pathlib suffix of a file name: the part of the name from its last dot,
provided that dot is neither the first nor the last character. -/
def pySuffix (name : List Char) : List Char :=
  let tail := (name.reverse.takeWhile (fun c => !(c == '.'))).reverse
  if tail.length = name.length then []
  else if tail.length = 0 then []
  else if name.length - tail.length - 1 = 0 then []
  else '.' :: tail

/-- The shared_modules accumulator of discover_source_code: for each
conventional shared directory name that exists at the root, every
non-ignored file beneath it whose suffix is a recognized extension, as a
relative path string. -/
def sharedModulesList (rootParts : List (List Char)) (fs : List FsEntry) : List (List Char) :=
  sharedPatterns.flatMap (fun nm =>
    if fs.any (fun e => e.path == [nm] && e.isDir) then
      (fs.filter (fun e =>
        e.path.head? == some nm && decide (2 ≤ e.path.length) && !e.isDir &&
          (languageExtensions.lookup (pySuffix (entryName e))).isSome &&
          !ignoredParts rootParts e)).map relStr
    else [])

/-- One step of the language-count tally: increment an existing label in
place or append a new one, preserving dict insertion order. -/
def bumpLang : List (List Char × Nat) → List Char → List (List Char × Nat)
  | [], lang => [(lang, 1)]
  | (k, v) :: rest, lang =>
    if k = lang then (k, v + 1) :: rest else (k, v) :: bumpLang rest lang

/-- The language_file_counts tally of discover_source_code: every
non-ignored file with a recognized suffix, counted per language label, in
traversal order. -/
def languageCountsList (rootParts : List (List Char)) (fs : List FsEntry) :
    List (List Char × Nat) :=
  fs.foldl (fun acc e =>
    if !ignoredParts rootParts e && !e.isDir &&
        (languageExtensions.lookup (pySuffix (entryName e))).isSome then
      bumpLang acc ((languageExtensions.lookup (pySuffix (entryName e))).getD [])
    else acc) []

/-- The key of maximal count, first maximum winning, as Python's max over
a dict with the dict's get as key. -/
def maxByCountAux : List Char → Nat → List (List Char × Nat) → List Char
  | best, _, [] => best
  | best, bv, (k, v) :: rest =>
    if bv < v then maxByCountAux k v rest else maxByCountAux best bv rest

/-- The primary_language choice of discover_source_code. -/
def primaryLanguage (counts : List (List Char × Nat)) : Option (List Char) :=
  match counts with
  | [] => none
  | (k, v) :: rest => some (maxByCountAux k v rest)

/-- The source_code part of the discovery report. -/
structure ScanResult where
  primary_language : Option (List Char)
  language_file_counts : List (List Char × Nat)
  source_directories : List (List Char)
  entry_points : List (List Char)
  shared_modules : List (List Char)
deriving DecidableEq

/-- discover_source_code over the filesystem model: the three path lists
are sorted on the way out, as in the source's return statement. -/
def discover_source_code (rootParts : List (List Char)) (fs : List FsEntry) : ScanResult :=
  { primary_language := primaryLanguage (languageCountsList rootParts fs)
    language_file_counts := languageCountsList rootParts fs
    source_directories := sortLex (sourceDirsList fs)
    entry_points := sortLex (entryPointsList rootParts fs)
    shared_modules := sortLex (sharedModulesList rootParts fs) }

/-- Well-formedness of a filesystem model: no path occurs twice, no path
is empty, and every component is a nonempty name without a slash.  Any
snapshot of a real directory tree satisfies this. -/
def WF (fs : List FsEntry) : Prop :=
  (fs.map FsEntry.path).Nodup ∧
    ∀ e ∈ fs, e.path ≠ [] ∧ ∀ c ∈ e.path, c ≠ [] ∧ '/' ∉ c

instance (fs : List FsEntry) : Decidable (WF fs) := by
  unfold WF; infer_instance

/-- A markdown heading: level and title. -/
structure SpecHeading where
  level : Nat
  title : List Char
deriving DecidableEq

/-- The line loop of _extract_headings: a stripped line starting with a
hash contributes a heading whose level is the number of leading hashes,
provided the title left after stripping the hashes is nonempty. -/
def headingsOfLines : List (List Char) → List SpecHeading
  | [] => []
  | line :: rest =>
    let stripped := pyStrip line
    if stripped.head? == some '#' then
      let lstripped := stripped.dropWhile (fun c => c == '#')
      let level := stripped.length - lstripped.length
      let title := pyStrip lstripped
      if title.isEmpty then headingsOfLines rest
      else { level := level, title := title } :: headingsOfLines rest
    else headingsOfLines rest

/-- _extract_headings on the text of a markdown file. -/
def extract_headings (text : List Char) : List SpecHeading :=
  headingsOfLines (splitLines text)

/-- The heading criterion in the words of the specification: a line is a
heading when, after trimming whitespace, it starts with one or more hash
characters followed by nonempty trimmed text; its level is the count of
leading hashes. -/
def headingOfLineSpec (line : List Char) : Option SpecHeading :=
  let s := pyStrip line
  let hashes := s.takeWhile (fun c => c == '#')
  let rest := s.dropWhile (fun c => c == '#')
  if 0 < hashes.length ∧ pyStrip rest ≠ [] then
    some { level := hashes.length, title := pyStrip rest }
  else none

/-- A recognized source file in the words of the specification's claim
about source directories: a file whose name carries a recognized language
extension. -/
def isRecognizedSourceFile (e : FsEntry) : Prop :=
  e.isDir = false ∧ pySuffix (entryName e) ∈ languageExtensions.map Prod.fst

instance (e : FsEntry) : Decidable (isRecognizedSourceFile e) := by
  unfold isRecognizedSourceFile; infer_instance

/-- Extension stripping in the words of the name-coverage claim: the name
minus its pathlib file extension. -/
def stripExtSpec (name : List Char) : List Char :=
  name.take (name.length - (pySuffix name).length)


/-- A document with two last-verified lines: the trailing one carries a
later date than the first. -/
def twoDatesDoc : List Char :=
  "Intro text\nLast verified: 2024-01-01\nLast verified: 2024-06-01".data

/-- A run environment in which all five files exist and are empty and both
enumerated directories are empty. -/
def envAllEmpty : DriftEnv :=
  { overview := some [], business := some [], technical := some [],
    dynamodb_tf := some [], api_gateway_tf := some [],
    lambdaEntries := [], layerGlob := [], now := 0 }

/-- A run environment whose overview document is missing. -/
def envNoOverview : DriftEnv :=
  { overview := none, business := some [], technical := some [],
    dynamodb_tf := some [], api_gateway_tf := some [],
    lambdaEntries := [], layerGlob := [], now := 0 }

/-- A document whose last-verified line carries a well-shaped but invalid
calendar date. -/
def invalidDateDoc : List Char := "Last verified: 2024-13-40".data

/-- A run environment whose overview document carries an invalid
last-verified date. -/
def envInvalidDate : DriftEnv :=
  { overview := some invalidDateDoc, business := some [], technical := some [],
    dynamodb_tf := some [], api_gateway_tf := some [],
    lambdaEntries := [], layerGlob := [], now := 0 }

/-- A directory tree whose only top-level directory contains one
subdirectory named like a Python file and no file at all. -/
def dirNamedAsPyFs : List FsEntry :=
  [{ path := ["app".data], isDir := true },
   { path := ["app".data, "x.py".data], isDir := true }]

/-- A small well-formed directory tree exercising the three output lists
of the scanner: a source directory, an entry point and a shared module. -/
def smallTreeFs : List FsEntry :=
  [{ path := ["src".data], isDir := true },
   { path := ["src".data, "main.py".data], isDir := false },
   { path := ["lib".data], isDir := true },
   { path := ["lib".data, "util.py".data], isDir := false },
   { path := ["docs".data], isDir := true },
   { path := ["docs".data, "readme.md".data], isDir := false }]

theorem mainResult_ok_shape (env : DriftEnv) (w r : Nat)
    (h : mainResult env = .ok (w, r)) : r = if 0 < w then 1 else 0 := by
  unfold mainResult at h
  cases hov : env.overview with
  | none => rw [hov] at h; simp [req] at h
  | some ovt =>
  rw [hov] at h
  cases htc : env.technical with
  | none => rw [htc] at h; simp [req] at h
  | some tct =>
  rw [htc] at h
  cases hdt : env.dynamodb_tf with
  | none => rw [hdt] at h; simp [req] at h
  | some dtt =>
  rw [hdt] at h
  cases hat : env.api_gateway_tf with
  | none => rw [hat] at h; simp [req] at h
  | some att =>
  rw [hat] at h
  simp only [req] at h
  cases hpo : parse_last_verified_date ovt with
  | error e => rw [hpo] at h; simp at h
  | ok od =>
  rw [hpo] at h
  cases hb : env.business with
  | none => rw [hb] at h; simp [req] at h
  | some bt =>
  rw [hb] at h
  simp only [req] at h
  cases hpb : parse_last_verified_date bt with
  | error e => rw [hpb] at h; simp at h
  | ok bd =>
  rw [hpb] at h
  cases hpt : parse_last_verified_date tct with
  | error e => rw [hpt] at h; simp at h
  | ok td =>
  rw [hpt] at h
  simp only [Except.ok.injEq, Prod.mk.injEq] at h
  obtain ⟨h1, h2⟩ := h
  subst h1
  exact h2.symm

/-- C1.  The result code of the drift comparator's main routine is nonzero
exactly when the aggregate warning count accumulated over the count,
name-coverage and freshness checks is positive: zero warnings give code 0
and one or more warnings give code 1. -/
theorem drift_result_code_iff_warnings (env : DriftEnv) (w r : Nat)
    (h : mainResult env = .ok (w, r)) :
    (r ≠ 0 ↔ 0 < w) ∧ (w = 0 → r = 0) ∧ (0 < w → r = 1) := by
  have hs := mainResult_ok_shape env w r h
  subst hs
  rcases Nat.eq_zero_or_pos w with hw | hw
  · subst hw; simp
  · simp [hw, Nat.pos_iff_ne_zero.mp hw]

/-- On the all-empty environment the main routine returns three freshness
warnings and result code one, and the code-warnings equivalence holds
there. -/
theorem drift_result_code_iff_warnings_witness :
    mainResult envAllEmpty = .ok (3, 1) ∧ ((1 : Nat) ≠ 0 ↔ 0 < (3 : Nat)) :=
  ⟨by decide, (drift_result_code_iff_warnings envAllEmpty 3 1 (by decide)).1⟩

theorem mainResult_ok_docs (env : DriftEnv) (p : Nat × Nat)
    (h : mainResult env = .ok p) :
    env.overview.isSome = true ∧ env.business.isSome = true ∧
      env.technical.isSome = true := by
  unfold mainResult at h
  cases hov : env.overview with
  | none => rw [hov] at h; simp [req] at h
  | some ovt =>
  rw [hov] at h
  cases htc : env.technical with
  | none => rw [htc] at h; simp [req] at h
  | some tct =>
  rw [htc] at h
  cases hdt : env.dynamodb_tf with
  | none => rw [hdt] at h; simp [req] at h
  | some dtt =>
  rw [hdt] at h
  cases hat : env.api_gateway_tf with
  | none => rw [hat] at h; simp [req] at h
  | some att =>
  rw [hat] at h
  simp only [req] at h
  cases hpo : parse_last_verified_date ovt with
  | error e => rw [hpo] at h; simp at h
  | ok od =>
  rw [hpo] at h
  cases hb : env.business with
  | none => rw [hb] at h; simp [req] at h
  | some bt => simp

/-- C6.  When one of the three required specification documents is
missing, the main routine aborts with an unhandled error and returns no
result code. -/
theorem missing_required_doc_aborts (env : DriftEnv)
    (h : env.overview = none ∨ env.business = none ∨ env.technical = none) :
    ∃ e, mainResult env = .error e := by
  cases hm : mainResult env with
  | error e => exact ⟨e, rfl⟩
  | ok p =>
    obtain ⟨h1, h2, h3⟩ := mainResult_ok_docs env p hm
    rcases h with h | h | h
    · rw [h] at h1; simp at h1
    · rw [h] at h2; simp at h2
    · rw [h] at h3; simp at h3

/-- On an environment whose overview document is missing, the main routine
aborts. -/
theorem missing_required_doc_aborts_witness :
    ∃ e, mainResult envNoOverview = .error e :=
  missing_required_doc_aborts envNoOverview (Or.inl rfl)

/-- C3.  A last-verified datetime exactly thirty days before now passes the
freshness check, one thirty-one days before now warns, and an absent date
always warns. -/
theorem freshness_thirty_day_boundary (now : Int) (y m d : Nat) :
    (dtMicro y m d = now - 30 * dayMicro →
      freshnessWarn now (some (dtMicro y m d)) = false) ∧
    (dtMicro y m d = now - 31 * dayMicro →
      freshnessWarn now (some (dtMicro y m d)) = true) ∧
    freshnessWarn now none = true := by
  refine ⟨fun h => ?_, fun h => ?_, rfl⟩
  · rw [h]
    simp only [freshnessWarn, decide_eq_false_iff_not, not_lt, dayMicro]
    omega
  · rw [h]
    simp only [freshnessWarn, decide_eq_true_eq, dayMicro]
    omega

/-- The freshness boundary at the concrete date 2024-01-01. -/
theorem freshness_thirty_day_boundary_witness :
    freshnessWarn (dtMicro 2024 1 1 + 30 * dayMicro) (some (dtMicro 2024 1 1)) = false ∧
    freshnessWarn (dtMicro 2024 1 1 + 31 * dayMicro) (some (dtMicro 2024 1 1)) = true :=
  ⟨(freshness_thirty_day_boundary (dtMicro 2024 1 1 + 30 * dayMicro) 2024 1 1).1 (by decide),
   (freshness_thirty_day_boundary (dtMicro 2024 1 1 + 31 * dayMicro) 2024 1 1).2.1 (by decide)⟩

/-- C4.  On a document with two last-verified lines the parser uses the
first match, not the trailing one: the claim's and the docstring's trailing
line of twoDatesDoc carries June 1, yet January 1 is parsed. -/
theorem parse_last_verified_uses_first_match :
    searchLV twoDatesDoc = some (2024, 1, 1) ∧
    parse_last_verified_date twoDatesDoc = .ok (some (dtMicro 2024 1 1)) ∧
    dtMicro 2024 1 1 ≠ dtMicro 2024 6 1 := by decide

/-- C9.  When the search of a document finds a well-shaped date string the
parser raises exactly on invalid calendar dates, aborting the whole run,
and returns the datetime of valid ones. -/
theorem invalid_date_aborts (env : DriftEnv) (t : List Char) (y m d : Nat)
    (hov : env.overview = some t)
    (htc : env.technical.isSome = true)
    (hdt : env.dynamodb_tf.isSome = true)
    (hat : env.api_gateway_tf.isSome = true)
    (hs : searchLV t = some (y, m, d)) :
    (¬ validDate y m d →
      parse_last_verified_date t = .error .valueError ∧
        mainResult env = .error .valueError) ∧
    (validDate y m d → parse_last_verified_date t = .ok (some (dtMicro y m d))) := by
  constructor
  · intro hv
    have hp : parse_last_verified_date t = .error .valueError := by
      unfold parse_last_verified_date
      rw [hs]
      simp [hv]
    refine ⟨hp, ?_⟩
    obtain ⟨tct, htc'⟩ := Option.isSome_iff_exists.mp htc
    obtain ⟨dtt, hdt'⟩ := Option.isSome_iff_exists.mp hdt
    obtain ⟨att, hat'⟩ := Option.isSome_iff_exists.mp hat
    unfold mainResult
    rw [hov, htc', hdt', hat']
    simp only [req]
    rw [hp]
  · intro hv
    unfold parse_last_verified_date
    rw [hs]
    simp [hv]

/-- The invalid calendar date 2024-13-40 in the overview document aborts
the run with a value error. -/
theorem invalid_date_aborts_witness :
    parse_last_verified_date invalidDateDoc = .error .valueError ∧
      mainResult envInvalidDate = .error .valueError :=
  (invalid_date_aborts envInvalidDate invalidDateDoc 2024 13 40 rfl rfl rfl rfl
    (by decide)).1 (by decide)

theorem containsSub_iff (needle hay : List Char) :
    containsSub needle hay = true ↔ needle <:+: hay := by
  induction hay with
  | nil => simp [containsSub, List.isEmpty_iff]
  | cons c t ih =>
    simp [containsSub, Bool.or_eq_true, List.isPrefixOf_iff_prefix, ih,
      List.infix_cons_iff]

/-- C5 counterexample.  The name m.pyc with its file extension stripped is
the bare m, which occurs verbatim in the spec texts, yet the coverage
check reports m.pyc missing: the source strips every occurrence of the
dot-p-y substring instead of the extension. -/
theorem find_missing_extension_strip_counterexample :
    stripExtSpec "m.pyc".data = "m".data ∧
    ("m".data <:+: joinNL ["module m here".data, "see docs".data]) ∧
    find_missing_in_spec ["m.pyc".data] ["module m here".data, "see docs".data]
      = ["m.pyc".data] :=
  ⟨by decide, (containsSub_iff _ _).mp (by decide), by decide⟩

/-- C5 amended.  A name is reported missing exactly when the name with
every occurrence of the substring dot-p-y removed does not occur verbatim
anywhere in the newline-join of the spec texts. -/
theorem find_missing_in_spec_replace_characterization
    (names spec_texts : List (List Char)) (name : List Char) :
    name ∈ find_missing_in_spec names spec_texts ↔
      name ∈ names ∧ ¬ (removePy name <:+: joinNL spec_texts) := by
  simp [find_missing_in_spec, List.mem_filter, ← containsSub_iff]

theorem headingsOfLines_cons (line : List Char) (rest : List (List Char)) :
    headingsOfLines (line :: rest) =
      (headingOfLineSpec line).toList ++ headingsOfLines rest := by
  cases hps : pyStrip line with
  | nil => simp [headingsOfLines, headingOfLineSpec, hps]
  | cons c t =>
    by_cases hc : c = '#'
    · subst hc
      have hsplit :=
        congrArg List.length (List.takeWhile_append_dropWhile (fun x => x == '#') t)
      simp only [List.length_append] at hsplit
      simp only [headingsOfLines, headingOfLineSpec, hps, List.head?_cons,
        List.takeWhile_cons, List.dropWhile_cons, beq_self_eq_true, if_true,
        List.length_cons]
      by_cases he : pyStrip (t.dropWhile (fun x => x == '#')) = []
      · simp [he, List.isEmpty_iff]
      · simp [he, List.isEmpty_iff]
        omega
    · simp [headingsOfLines, headingOfLineSpec, hps, List.takeWhile_cons,
        beq_iff_eq, hc]

theorem headingsOfLines_eq_filterMap (lines : List (List Char)) :
    headingsOfLines lines = lines.filterMap headingOfLineSpec := by
  induction lines with
  | nil => rfl
  | cons l rest ih =>
    rw [headingsOfLines_cons, ih, List.filterMap_cons]
    cases headingOfLineSpec l <;> simp

theorem length_filterMap_eq_length_filter (f : List Char → Option SpecHeading)
    (l : List (List Char)) :
    (l.filterMap f).length = (l.filter (fun x => (f x).isSome)).length := by
  induction l with
  | nil => rfl
  | cons a t ih =>
    rw [List.filterMap_cons]
    cases h : f a <;> simp [List.filter_cons, h, ih]

/-- C7.  Heading extraction yields exactly the headings the specification
describes, one per qualifying line in document order with level equal to
the count of leading hashes, and repeated extraction from the same text
yields the same sequence. -/
theorem extract_headings_spec (text : List Char) :
    extract_headings text = (splitLines text).filterMap headingOfLineSpec ∧
    (extract_headings text).length =
      ((splitLines text).filter (fun l => (headingOfLineSpec l).isSome)).length ∧
    extract_headings text = extract_headings text := by
  refine ⟨headingsOfLines_eq_filterMap (splitLines text), ?_, rfl⟩
  rw [extract_headings, headingsOfLines_eq_filterMap]
  exact length_filterMap_eq_length_filter headingOfLineSpec (splitLines text)

theorem splitLines_cons (c : Char) (cs : List Char) :
    splitLines (c :: cs) =
      if c = '\n' then [] :: splitLines cs
      else
        match splitLines cs with
        | [] => [[c]]
        | l :: rest => (c :: l) :: rest := rfl

theorem splitLines_single (l : List Char) (hnl : '\n' ∉ l) (hne : l ≠ []) :
    splitLines l = [l] := by
  induction l with
  | nil => exact absurd rfl hne
  | cons c t ih =>
    have hc : ¬ c = '\n' := fun h => hnl (h ▸ List.mem_cons_self c t)
    cases t with
    | nil => simp [splitLines, hc]
    | cons d ts =>
      have ht : splitLines (d :: ts) = [d :: ts] :=
        ih (fun hm => hnl (List.mem_cons_of_mem c hm)) (by simp)
      rw [splitLines_cons, if_neg hc, ht]

theorem splitLines_append_newline (l rest : List Char) (hnl : '\n' ∉ l) :
    splitLines (l ++ '\n' :: rest) = l :: splitLines rest := by
  induction l with
  | nil => simp [splitLines]
  | cons c t ih =>
    have hc : ¬ c = '\n' := fun h => hnl (h ▸ List.mem_cons_self c t)
    have ht := ih (fun hm => hnl (List.mem_cons_of_mem c hm))
    simp [splitLines, hc, ht]

theorem splitLines_joinNL (lines : List (List Char))
    (hnl : ∀ l ∈ lines, '\n' ∉ l) (hlast : lines.getLast? ≠ some []) :
    splitLines (joinNL lines) = lines := by
  induction lines with
  | nil => rfl
  | cons l rest ih =>
    cases rest with
    | nil =>
      have hne : l ≠ [] := by
        intro h
        exact hlast (by simp [h])
      exact splitLines_single l (hnl l (List.mem_cons_self l [])) hne
    | cons l2 rs =>
      have hj : joinNL (l :: l2 :: rs) = l ++ '\n' :: joinNL (l2 :: rs) := rfl
      rw [hj, splitLines_append_newline l _ (hnl l (List.mem_cons_self l _)),
        ih (fun x hx => hnl x (List.mem_cons_of_mem l hx))
          (by rw [List.getLast?_cons_cons] at hlast; exact hlast)]

theorem startsPipe_of_isSepRow (cs : List Char) (h : isSepRow cs = true) :
    startsPipe cs = true := by
  cases cs with
  | nil => simp [isSepRow] at h
  | cons c rest =>
    simp only [isSepRow, Bool.and_eq_true, beq_iff_eq] at h
    simp [startsPipe, h.1.1.1]

theorem all_isSepChar_of_isSepRow (cs : List Char) (h : isSepRow cs = true) :
    cs.all isSepChar = true := by
  cases cs with
  | nil => simp [isSepRow] at h
  | cons c rest =>
    simp only [isSepRow, Bool.and_eq_true, beq_iff_eq, decide_eq_true_eq] at h
    obtain ⟨⟨⟨hc, hlen⟩, hlast⟩, hall⟩ := h
    have hrest : rest ≠ [] := by
      intro h0
      rw [h0] at hlen
      simp at hlen
    have hdecomp := List.dropLast_append_getLast hrest
    have hl : rest.getLast hrest = '|' := by
      have h2 := (List.getLast?_eq_getLast rest hrest).symm.trans hlast
      exact Option.some_injective _ h2
    rw [List.all_cons, hc]
    have : rest.all isSepChar = true := by
      rw [← hdecomp, List.all_append, hall, hl]
      simp [isSepChar]
    rw [this]
    simp [isSepChar]

theorem isSepRow_eq_false_of_not_all (cs : List Char) (h : cs.all isSepChar = false) :
    isSepRow cs = false := by
  cases hsr : isSepRow cs
  · rfl
  · rw [all_isSepChar_of_isSepRow cs hsr] at h
    exact absurd h (by simp)

theorem ctrLoop_skip_pre (sectionP stopP : List Char → Bool) (pre : List (List Char))
    (rest : List (List Char)) (it : Bool) (c : Nat)
    (hpre : ∀ l ∈ pre, sectionP l = false) :
    ctrLoop sectionP stopP (pre ++ rest) false it c =
      ctrLoop sectionP stopP rest false it c := by
  induction pre with
  | nil => rfl
  | cons p ps ih =>
    have hp : sectionP p = false := hpre p (List.mem_cons_self p ps)
    rw [List.cons_append]
    rw [ctrLoop]
    simp only [hp, if_pos rfl, if_neg]
    exact ih (fun l hl => hpre l (List.mem_cons_of_mem p hl))

theorem ctrLoop_count_data (sectionP stopP : List Char → Bool)
    (data post : List (List Char)) (c : Nat)
    (hdata : ∀ l ∈ data, stopP l = false ∧ startsPipe (pyStrip l) = true ∧
      (pyStrip l).all isSepChar = false)
    (hpost : post = [] ∨ ∃ q ps, post = q :: ps ∧ stopP q = true) :
    ctrLoop sectionP stopP (data ++ post) true true c = c + data.length := by
  induction data generalizing c with
  | nil =>
    rcases hpost with h | ⟨q, ps, hq, hstop⟩
    · subst h; rfl
    · subst hq
      simp [ctrLoop, hstop]
  | cons d ds ih =>
    obtain ⟨hstop, hpipe, hall⟩ := hdata d (List.mem_cons_self d ds)
    have hsep : isSepRow (pyStrip d) = false := isSepRow_eq_false_of_not_all _ hall
    rw [List.cons_append, ctrLoop]
    simp only [hstop, hpipe, hsep, Bool.not_false, Bool.and_true, if_pos rfl,
      Bool.false_eq_true, if_false, if_true]
    rw [ih (c + 1) (fun l hl => hdata l (List.mem_cons_of_mem d hl))]
    simp [List.length_cons]
    omega

/-- C2.  On a text whose section start line is followed by a markdown
table of one header row, one separator row and any number of data rows,
closed by a stop line or by the end of the text, the row counter returns
exactly the number of data rows; and on a text none of whose lines matches
the start pattern it returns zero. -/
theorem count_table_rows_spec :
    (∀ (sectionP stopP : List Char → Bool) (pre : List (List Char))
        (s header sep : List Char) (data post : List (List Char)),
      (∀ l ∈ pre, sectionP l = false) →
      sectionP s = true →
      stopP header = false →
      startsPipe (pyStrip header) = true →
      (pyStrip header).all isSepChar = false →
      stopP sep = false →
      isSepRow (pyStrip sep) = true →
      (∀ l ∈ data, stopP l = false ∧ startsPipe (pyStrip l) = true ∧
        (pyStrip l).all isSepChar = false) →
      (post = [] ∨ ∃ q ps, post = q :: ps ∧ stopP q = true) →
      (∀ l ∈ pre ++ (s :: header :: sep :: (data ++ post)), '\n' ∉ l) →
      (pre ++ (s :: header :: sep :: (data ++ post))).getLast? ≠ some [] →
      count_table_rows (joinNL (pre ++ (s :: header :: sep :: (data ++ post))))
        sectionP stopP = data.length) ∧
    (∀ (text : List Char) (sectionP stopP : List Char → Bool),
      (∀ l ∈ splitLines text, sectionP l = false) →
      count_table_rows text sectionP stopP = 0) := by
  constructor
  · intro sectionP stopP pre s header sep data post hpre hs hsh hshp hsha hss hsr
      hdata hpost hnl hlast
    rw [count_table_rows, splitLines_joinNL _ hnl hlast,
      ctrLoop_skip_pre sectionP stopP pre (s :: header :: sep :: (data ++ post))
        false 0 hpre]
    have hseph : isSepRow (pyStrip header) = false := isSepRow_eq_false_of_not_all _ hsha
    have hpsep : startsPipe (pyStrip sep) = true := startsPipe_of_isSepRow _ hsr
    have hstep1 : ctrLoop sectionP stopP (s :: header :: sep :: (data ++ post)) false false 0
        = ctrLoop sectionP stopP (header :: sep :: (data ++ post)) true false 0 := by
      rw [ctrLoop]
      simp [hs]
    have hstep2 : ctrLoop sectionP stopP (header :: sep :: (data ++ post)) true false 0
        = ctrLoop sectionP stopP (sep :: (data ++ post)) true true 0 := by
      rw [ctrLoop]
      simp [hsh, hshp, hseph]
    have hstep3 : ctrLoop sectionP stopP (sep :: (data ++ post)) true true 0
        = ctrLoop sectionP stopP (data ++ post) true true 0 := by
      rw [ctrLoop]
      simp [hss, hsr, hpsep]
    rw [hstep1, hstep2, hstep3, ctrLoop_count_data _ _ _ _ _ hdata hpost]
    simp
  · intro text sectionP stopP h
    rw [count_table_rows]
    have := ctrLoop_skip_pre sectionP stopP (splitLines text) [] false 0 h
    rw [List.append_nil] at this
    rw [this]
    rfl

/-- A concrete instance of the table-count property: one context line, a
start line, a two-column header, a dash separator, two data rows and a
stop line give count two. -/
theorem count_table_rows_spec_witness :
    count_table_rows (joinNL (["intro".data] ++ ("## Tables".data :: "| a | b |".data ::
        "|---|---|".data :: (["| 1 | 2 |".data, "| 3 | 4 |".data] ++ ["## Next".data]))))
      (fun l => l == "## Tables".data) (fun l => l == "## Next".data) = 2 := by
  have h := count_table_rows_spec.1 (fun l => l == "## Tables".data)
    (fun l => l == "## Next".data) ["intro".data] "## Tables".data "| a | b |".data
    "|---|---|".data ["| 1 | 2 |".data, "| 3 | 4 |".data] ["## Next".data]
    (by decide) (by decide) (by decide) (by decide) (by decide) (by decide) (by decide)
    (by decide) (Or.inr ⟨"## Next".data, [], rfl, by decide⟩) (by decide) (by decide)
  exact h.trans (by decide)

/-- C8 counterexample.  The tree dirNamedAsPyFs has no file with a
recognized language extension anywhere, yet its top-level directory is
classified as a source directory: the has-source probe pattern-matches
names of directories too. -/
theorem source_dirs_dir_counterexample :
    "app".data ∈ (discover_source_code [] dirNamedAsPyFs).source_directories ∧
    ∀ e ∈ dirNamedAsPyFs, ¬ isRecognizedSourceFile e := by
  constructor
  · decide
  · decide

theorem mem_sortByName (e : FsEntry) (l : List FsEntry) : e ∈ sortByName l ↔ e ∈ l :=
  (List.perm_insertionSort _ l).mem_iff

theorem mem_sortLex (x : List Char) (l : List (List Char)) : x ∈ sortLex l ↔ x ∈ l :=
  (List.perm_insertionSort _ l).mem_iff

theorem mem_topLevel (e : FsEntry) (fs : List FsEntry) :
    e ∈ topLevel fs ↔ e ∈ fs ∧ e.path.length = 1 := by
  simp [topLevel, List.mem_filter]

theorem path_len_one_iff (e : FsEntry) (d : List Char) :
    e.path.length = 1 ∧ entryName e = d ↔ e.path = [d] := by
  cases hp : e.path with
  | nil => simp [entryName, hp]
  | cons a t =>
    cases t with
    | nil => simp [entryName, hp]
    | cons b ts => simp [entryName, hp]

theorem hasSourceUnder_iff (fs : List FsEntry) (dname : List Char) :
    hasSourceUnder fs dname = true ↔
      ∃ p ∈ languageExtensions, ∃ e ∈ fs, e.path.head? = some dname ∧
        2 ≤ e.path.length ∧ p.1 <:+ entryName e := by
  simp [hasSourceUnder, List.any_eq_true, List.isSuffixOf_iff_suffix, and_assoc]

theorem srcDirFilter_iff (fs : List FsEntry) (e : FsEntry) :
    srcDirFilter fs e = true ↔
      e.isDir = true ∧ (entryName e).head? ≠ some '.' ∧
        entryName e ∉ ignoreDirs ∧ hasSourceUnder fs (entryName e) = true := by
  simp [srcDirFilter, Bool.and_eq_true, and_assoc]

/-- C8 amended.  A name is listed among the source directories exactly
when it names a non-dot, non-ignored top-level directory beneath which
some entry, file or directory, has a name ending in a recognized language
extension: the has-source probe of the source matches any rglob entry, not
files only. -/
theorem source_directories_characterization (rootParts : List (List Char))
    (fs : List FsEntry) (d : List Char) :
    d ∈ (discover_source_code rootParts fs).source_directories ↔
      ((∃ e ∈ fs, e.path = [d] ∧ e.isDir = true) ∧
        d.head? ≠ some '.' ∧ d ∉ ignoreDirs ∧
        (∃ p ∈ languageExtensions, ∃ e ∈ fs, e.path.head? = some d ∧
          2 ≤ e.path.length ∧ p.1 <:+ entryName e)) := by
  have h1 : d ∈ (discover_source_code rootParts fs).source_directories ↔
      d ∈ sourceDirsList fs := (List.perm_insertionSort _ (sourceDirsList fs)).mem_iff
  rw [h1, sourceDirsList]
  simp only [List.mem_map, List.mem_filter, mem_sortByName, mem_topLevel]
  constructor
  · rintro ⟨e, ⟨⟨hefs, hlen⟩, hfilt⟩, hname⟩
    obtain ⟨hdir, hdot, hnig, hsrc⟩ := (srcDirFilter_iff fs e).mp hfilt
    have hpath : e.path = [d] := (path_len_one_iff e d).mp ⟨hlen, hname⟩
    rw [hname] at hdot hnig hsrc
    exact ⟨⟨e, hefs, hpath, hdir⟩, hdot, hnig, (hasSourceUnder_iff fs d).mp hsrc⟩
  · rintro ⟨⟨e, hefs, hpath, hdir⟩, hdot, hnig, hsrc⟩
    have hpair := (path_len_one_iff e d).mpr hpath
    refine ⟨e, ⟨⟨hefs, hpair.1⟩, ?_⟩, hpair.2⟩
    rw [srcDirFilter_iff, hpair.2]
    exact ⟨hdir, hdot, hnig, (hasSourceUnder_iff fs d).mpr hsrc⟩

theorem list_any_congr {α : Type} (f g : α → Bool) (l : List α)
    (h : ∀ x ∈ l, f x = g x) : l.any f = l.any g := by
  induction l with
  | nil => rfl
  | cons a t ih =>
    rw [List.any_cons, List.any_cons, h a (List.mem_cons_self a t),
      ih (fun x hx => h x (List.mem_cons_of_mem a hx))]

theorem perm_any {l₁ l₂ : List FsEntry} (h : l₁.Perm l₂) (f : FsEntry → Bool) :
    l₁.any f = l₂.any f := by
  by_cases hb : l₁.any f = true
  · rw [hb]
    symm
    rw [List.any_eq_true] at hb ⊢
    obtain ⟨x, hx, hfx⟩ := hb
    exact ⟨x, h.mem_iff.mp hx, hfx⟩
  · have hb2 : ¬ l₂.any f = true := by
      intro hc
      rw [List.any_eq_true] at hc
      obtain ⟨x, hx, hfx⟩ := hc
      exact hb (List.any_eq_true.mpr ⟨x, h.mem_iff.mpr hx, hfx⟩)
    rw [Bool.not_eq_true] at hb hb2
    rw [hb, hb2]

theorem hasSourceUnder_perm (fs₁ fs₂ : List FsEntry) (h : fs₁.Perm fs₂)
    (dname : List Char) : hasSourceUnder fs₁ dname = hasSourceUnder fs₂ dname := by
  unfold hasSourceUnder
  exact list_any_congr _ _ _ (fun p _ => perm_any h _)

theorem srcDirFilter_congr (fs₁ fs₂ : List FsEntry) (h : fs₁.Perm fs₂) (e : FsEntry) :
    srcDirFilter fs₁ e = srcDirFilter fs₂ e := by
  unfold srcDirFilter
  rw [hasSourceUnder_perm fs₁ fs₂ h]

theorem flatMap_perm_parts (keys : List (List Char))
    (f g : List Char → List (List Char))
    (h : ∀ k ∈ keys, (f k).Perm (g k)) :
    (keys.flatMap f).Perm (keys.flatMap g) := by
  induction keys with
  | nil => exact List.Perm.refl _
  | cons k ks ih =>
    rw [List.flatMap_cons, List.flatMap_cons]
    exact (h k (List.mem_cons_self k ks)).append
      (ih (fun x hx => h x (List.mem_cons_of_mem k hx)))

theorem sourceDirsList_perm (fs₁ fs₂ : List FsEntry) (h : fs₁.Perm fs₂) :
    (sourceDirsList fs₁).Perm (sourceDirsList fs₂) := by
  unfold sourceDirsList
  have hp : (sortByName (topLevel fs₁)).Perm (sortByName (topLevel fs₂)) := by
    unfold sortByName topLevel
    exact (List.perm_insertionSort _ _).trans
      ((h.filter _).trans (List.perm_insertionSort _ _).symm)
  have hfc : (sortByName (topLevel fs₂)).filter (srcDirFilter fs₁)
      = (sortByName (topLevel fs₂)).filter (srcDirFilter fs₂) :=
    List.filter_congr (fun e _ => srcDirFilter_congr fs₁ fs₂ h e)
  have h1 := ((hp.filter (srcDirFilter fs₁)).map entryName)
  rw [hfc] at h1
  exact h1

theorem entryPointsList_perm (rootParts : List (List Char)) (fs₁ fs₂ : List FsEntry)
    (h : fs₁.Perm fs₂) :
    (entryPointsList rootParts fs₁).Perm (entryPointsList rootParts fs₂) := by
  unfold entryPointsList
  exact flatMap_perm_parts _ _ _ (fun pat _ => (h.filter _).map relStr)

theorem sharedModulesList_perm (rootParts : List (List Char)) (fs₁ fs₂ : List FsEntry)
    (h : fs₁.Perm fs₂) :
    (sharedModulesList rootParts fs₁).Perm (sharedModulesList rootParts fs₂) := by
  unfold sharedModulesList
  refine flatMap_perm_parts _ _ _ (fun nm _ => ?_)
  rw [perm_any h (fun e => e.path == [nm] && e.isDir)]
  split
  · exact (h.filter _).map relStr
  · exact List.Perm.refl _

theorem append_slash_inj (a₁ : List Char) : ∀ (a₂ t₁ t₂ : List Char),
    a₁ ++ '/' :: t₁ = a₂ ++ '/' :: t₂ → '/' ∉ a₁ → '/' ∉ a₂ →
    a₁ = a₂ ∧ t₁ = t₂ := by
  induction a₁ with
  | nil =>
    intro a₂ t₁ t₂ h h₁ h₂
    cases a₂ with
    | nil =>
      simp only [List.nil_append, List.cons.injEq] at h
      exact ⟨rfl, h.2⟩
    | cons b bs =>
      simp only [List.nil_append, List.cons_append, List.cons.injEq] at h
      refine absurd ?_ h₂
      rw [← h.1]
      exact List.mem_cons_self '/' bs
  | cons a as ih =>
    intro a₂ t₁ t₂ h h₁ h₂
    cases a₂ with
    | nil =>
      simp only [List.cons_append, List.nil_append, List.cons.injEq] at h
      refine absurd ?_ h₁
      rw [h.1]
      exact List.mem_cons_self '/' as
    | cons b bs =>
      simp only [List.cons_append, List.cons.injEq] at h
      obtain ⟨hab, htail⟩ := h
      obtain ⟨h3, h4⟩ := ih bs t₁ t₂ htail
        (fun hm => h₁ (List.mem_cons_of_mem a hm))
        (fun hm => h₂ (List.mem_cons_of_mem b hm))
      rw [hab, h3, h4]
      exact ⟨rfl, rfl⟩

theorem joinPath_inj (p₁ : List (List Char)) : ∀ (p₂ : List (List Char)),
    (∀ c ∈ p₁, c ≠ [] ∧ '/' ∉ c) → (∀ c ∈ p₂, c ≠ [] ∧ '/' ∉ c) →
    p₁ ≠ [] → p₂ ≠ [] → joinPath p₁ = joinPath p₂ → p₁ = p₂ := by
  induction p₁ with
  | nil => intro p₂ _ _ hne _ _; exact absurd rfl hne
  | cons a as ih =>
    intro p₂ w₁ w₂ _ hne₂ h
    cases p₂ with
    | nil => exact absurd rfl hne₂
    | cons b bs =>
      cases as with
      | nil =>
        cases bs with
        | nil =>
          have ha : joinPath [a] = a := rfl
          have hb : joinPath [b] = b := rfl
          rw [ha, hb] at h
          rw [h]
        | cons b₂ bs₂ =>
          exfalso
          have hj : joinPath (b :: b₂ :: bs₂) = b ++ '/' :: joinPath (b₂ :: bs₂) := rfl
          have ha : joinPath [a] = a := rfl
          rw [ha, hj] at h
          refine (w₁ a (List.mem_cons_self a [])).2 ?_
          rw [h]
          exact List.mem_append_right b (List.mem_cons_self '/' _)
      | cons a₂ as₂ =>
        cases bs with
        | nil =>
          exfalso
          have hj : joinPath (a :: a₂ :: as₂) = a ++ '/' :: joinPath (a₂ :: as₂) := rfl
          have hb : joinPath [b] = b := rfl
          rw [hj, hb] at h
          refine (w₂ b (List.mem_cons_self b [])).2 ?_
          rw [← h]
          exact List.mem_append_right a (List.mem_cons_self '/' _)
        | cons b₂ bs₂ =>
          have hj1 : joinPath (a :: a₂ :: as₂) = a ++ '/' :: joinPath (a₂ :: as₂) := rfl
          have hj2 : joinPath (b :: b₂ :: bs₂) = b ++ '/' :: joinPath (b₂ :: bs₂) := rfl
          rw [hj1, hj2] at h
          obtain ⟨hab, ht⟩ := append_slash_inj a b _ _ h
            (w₁ a (List.mem_cons_self a _)).2 (w₂ b (List.mem_cons_self b _)).2
          have hrest := ih (b₂ :: bs₂) (fun c hc => w₁ c (List.mem_cons_of_mem a hc))
            (fun c hc => w₂ c (List.mem_cons_of_mem b hc)) (by simp) (by simp) ht
          rw [hab, hrest]

theorem fs_nodup_of_wf (fs : List FsEntry) (hwf : WF fs) : fs.Nodup :=
  List.Nodup.of_map _ hwf.1

theorem path_inj_on (fs : List FsEntry) (hwf : WF fs) :
    ∀ e₁ ∈ fs, ∀ e₂ ∈ fs, e₁.path = e₂.path → e₁ = e₂ :=
  fun _ h₁ _ h₂ hp => List.inj_on_of_nodup_map hwf.1 h₁ h₂ hp

theorem relStr_inj_on (fs : List FsEntry) (hwf : WF fs) :
    ∀ e₁ ∈ fs, ∀ e₂ ∈ fs, relStr e₁ = relStr e₂ → e₁ = e₂ := by
  intro e₁ h₁ e₂ h₂ hr
  obtain ⟨hne₁, hw₁⟩ := hwf.2 e₁ h₁
  obtain ⟨hne₂, hw₂⟩ := hwf.2 e₂ h₂
  exact path_inj_on fs hwf e₁ h₁ e₂ h₂ (joinPath_inj _ _ hw₁ hw₂ hne₁ hne₂ hr)

theorem nodup_flatMap_of (keys : List (List Char)) (f : List Char → List (List Char))
    (hk : keys.Nodup) (hn : ∀ k ∈ keys, (f k).Nodup)
    (hd : ∀ k k' x, x ∈ f k → x ∈ f k' → k = k') :
    (keys.flatMap f).Nodup := by
  induction keys with
  | nil => simp
  | cons k ks ih =>
    rw [List.flatMap_cons, List.nodup_append]
    obtain ⟨hknotin, hksnodup⟩ := List.nodup_cons.mp hk
    refine ⟨hn k (List.mem_cons_self k ks),
      ih hksnodup (fun x hx => hn x (List.mem_cons_of_mem k hx)), ?_⟩
    intro x hx hx'
    rw [List.mem_flatMap] at hx'
    obtain ⟨k', hk', hxk'⟩ := hx'
    refine hknotin ?_
    rw [hd k k' x hx hxk']
    exact hk'

theorem sourceDirsList_nodup (fs : List FsEntry) (hwf : WF fs) :
    (sourceDirsList fs).Nodup := by
  unfold sourceDirsList
  refine List.Nodup.map_on ?_ (List.Nodup.filter _ ?_)
  · intro x hx y hy hxy
    have hx1 := (List.mem_filter.mp hx).1
    have hy1 := (List.mem_filter.mp hy).1
    rw [mem_sortByName, mem_topLevel] at hx1 hy1
    have hpx : x.path = [entryName x] := (path_len_one_iff x (entryName x)).mp ⟨hx1.2, rfl⟩
    have hpy : y.path = [entryName y] := (path_len_one_iff y (entryName y)).mp ⟨hy1.2, rfl⟩
    refine path_inj_on fs hwf x hx1.1 y hy1.1 ?_
    rw [hpx, hpy, hxy]
  · exact ((List.perm_insertionSort _ _).nodup_iff).mpr
      (List.Nodup.filter _ (fs_nodup_of_wf fs hwf))

theorem entryPointsList_nodup (rootParts : List (List Char)) (fs : List FsEntry)
    (hwf : WF fs) : (entryPointsList rootParts fs).Nodup := by
  unfold entryPointsList
  refine nodup_flatMap_of _ _ (by decide) (fun pat _ => ?_) ?_
  · refine List.Nodup.map_on ?_ (List.Nodup.filter _ (fs_nodup_of_wf fs hwf))
    intro x hx y hy hxy
    exact relStr_inj_on fs hwf x (List.mem_filter.mp hx).1 y (List.mem_filter.mp hy).1 hxy
  · intro k k' x hx hx'
    rw [List.mem_map] at hx hx'
    obtain ⟨e, he, hex⟩ := hx
    obtain ⟨e2, he2, hex2⟩ := hx'
    have hef := List.mem_filter.mp he
    have hef2 := List.mem_filter.mp he2
    have hee : e = e2 :=
      relStr_inj_on fs hwf e hef.1 e2 hef2.1 (hex.trans hex2.symm)
    have h1 : entryName e = k := by
      have hb := hef.2
      simp only [Bool.and_eq_true, beq_iff_eq] at hb
      exact hb.1
    have h2 : entryName e2 = k' := by
      have hb := hef2.2
      simp only [Bool.and_eq_true, beq_iff_eq] at hb
      exact hb.1
    rw [← h1, hee, h2]

theorem sharedModulesList_nodup (rootParts : List (List Char)) (fs : List FsEntry)
    (hwf : WF fs) : (sharedModulesList rootParts fs).Nodup := by
  unfold sharedModulesList
  refine nodup_flatMap_of _ _ (by decide) (fun nm _ => ?_) ?_
  · split
    · refine List.Nodup.map_on ?_ (List.Nodup.filter _ (fs_nodup_of_wf fs hwf))
      intro x hx y hy hxy
      exact relStr_inj_on fs hwf x (List.mem_filter.mp hx).1 y (List.mem_filter.mp hy).1 hxy
    · exact List.nodup_nil
  · intro k k' x hx hx'
    by_cases hg : fs.any (fun e => e.path == [k] && e.isDir) = true
    · rw [if_pos hg] at hx
      by_cases hg2 : fs.any (fun e => e.path == [k'] && e.isDir) = true
      · rw [if_pos hg2] at hx'
        rw [List.mem_map] at hx hx'
        obtain ⟨e, he, hex⟩ := hx
        obtain ⟨e2, he2, hex2⟩ := hx'
        have hef := List.mem_filter.mp he
        have hef2 := List.mem_filter.mp he2
        have hee : e = e2 :=
          relStr_inj_on fs hwf e hef.1 e2 hef2.1 (hex.trans hex2.symm)
        have h1 : e.path.head? = some k := by
          have hb := hef.2
          simp only [Bool.and_eq_true, beq_iff_eq] at hb
          exact hb.1.1.1.1
        have h2 : e2.path.head? = some k' := by
          have hb := hef2.2
          simp only [Bool.and_eq_true, beq_iff_eq] at hb
          exact hb.1.1.1.1
        rw [hee] at h1
        rw [h1] at h2
        exact Option.some_injective _ h2
      · rw [if_neg hg2] at hx'
        exact absurd hx' (List.not_mem_nil x)
    · rw [if_neg hg] at hx
      exact absurd hx (List.not_mem_nil x)

theorem discover_source_directories_eq (rootParts : List (List Char))
    (fs : List FsEntry) :
    (discover_source_code rootParts fs).source_directories =
      sortLex (sourceDirsList fs) := rfl

theorem discover_entry_points_eq (rootParts : List (List Char)) (fs : List FsEntry) :
    (discover_source_code rootParts fs).entry_points =
      sortLex (entryPointsList rootParts fs) := rfl

theorem discover_shared_modules_eq (rootParts : List (List Char)) (fs : List FsEntry) :
    (discover_source_code rootParts fs).shared_modules =
      sortLex (sharedModulesList rootParts fs) := rfl

theorem sortLex_sorted (l : List (List Char)) : List.Sorted (· ≤ ·) (sortLex l) :=
  List.sorted_insertionSort _ l

theorem sortLex_nodup (l : List (List Char)) (h : l.Nodup) : (sortLex l).Nodup :=
  ((List.perm_insertionSort _ l).nodup_iff).mpr h

theorem sortLex_eq_of_perm (A B : List (List Char)) (h : A.Perm B) :
    sortLex A = sortLex B :=
  List.eq_of_perm_of_sorted
    ((List.perm_insertionSort _ A).trans (h.trans (List.perm_insertionSort _ B).symm))
    (List.sorted_insertionSort _ A) (List.sorted_insertionSort _ B)

/-- C10.  On a well-formed tree the three path lists of the scanner's
report are lexicographically sorted and free of duplicates, and any
reordering of the filesystem's enumeration yields the same three lists. -/
theorem discover_lists_canonical (rootParts : List (List Char)) (fs : List FsEntry)
    (hwf : WF fs) :
    List.Sorted (· ≤ ·) (discover_source_code rootParts fs).source_directories ∧
    (discover_source_code rootParts fs).source_directories.Nodup ∧
    List.Sorted (· ≤ ·) (discover_source_code rootParts fs).entry_points ∧
    (discover_source_code rootParts fs).entry_points.Nodup ∧
    List.Sorted (· ≤ ·) (discover_source_code rootParts fs).shared_modules ∧
    (discover_source_code rootParts fs).shared_modules.Nodup ∧
    ∀ fs₂, fs.Perm fs₂ →
      (discover_source_code rootParts fs₂).source_directories =
        (discover_source_code rootParts fs).source_directories ∧
      (discover_source_code rootParts fs₂).entry_points =
        (discover_source_code rootParts fs).entry_points ∧
      (discover_source_code rootParts fs₂).shared_modules =
        (discover_source_code rootParts fs).shared_modules := by
  refine ⟨?_, ?_, ?_, ?_, ?_, ?_, ?_⟩
  · rw [discover_source_directories_eq]
    exact sortLex_sorted _
  · rw [discover_source_directories_eq]
    exact sortLex_nodup _ (sourceDirsList_nodup fs hwf)
  · rw [discover_entry_points_eq]
    exact sortLex_sorted _
  · rw [discover_entry_points_eq]
    exact sortLex_nodup _ (entryPointsList_nodup rootParts fs hwf)
  · rw [discover_shared_modules_eq]
    exact sortLex_sorted _
  · rw [discover_shared_modules_eq]
    exact sortLex_nodup _ (sharedModulesList_nodup rootParts fs hwf)
  · intro fs₂ hp
    refine ⟨?_, ?_, ?_⟩
    · rw [discover_source_directories_eq, discover_source_directories_eq]
      exact sortLex_eq_of_perm _ _ (sourceDirsList_perm fs₂ fs hp.symm)
    · rw [discover_entry_points_eq, discover_entry_points_eq]
      exact sortLex_eq_of_perm _ _ (entryPointsList_perm rootParts fs₂ fs hp.symm)
    · rw [discover_shared_modules_eq, discover_shared_modules_eq]
      exact sortLex_eq_of_perm _ _ (sharedModulesList_perm rootParts fs₂ fs hp.symm)

/-- On the small concrete tree the scanner's source-directory list is
sorted, by the canonical-lists property. -/
theorem discover_lists_canonical_witness :
    List.Sorted (· ≤ ·) (discover_source_code [] smallTreeFs).source_directories ∧
    (discover_source_code [] smallTreeFs).entry_points.Nodup :=
  ⟨(discover_lists_canonical [] smallTreeFs (by decide)).1,
   (discover_lists_canonical [] smallTreeFs (by decide)).2.2.2.1⟩

/-- Evaluation check: the resource findall collects the captured names in
order of occurrence. -/
theorem findResources_eval :
    findResources "aws_dynamodb_table".data
      "resource \"aws_dynamodb_table\" \"users\" x resource \"aws_dynamodb_table\" \"posts\"".data
      = ["users".data, "posts".data] := by decide

/-- Evaluation check: two route headings give a spec-side route count of
two. -/
theorem apiRouteMatches_eval :
    apiRouteMatches "### 1.1 POST /rank text ### 1.2 GET /user".data = 2 := by decide

/-- Evaluation check: the last-verified search reads the date digits. -/
theorem searchLV_eval :
    searchLV "x Last verified: 2024-03-05 y".data = some (2024, 3, 5) := by decide

/-- Evaluation check: the heading extractor on a small document. -/
theorem extract_headings_eval :
    extract_headings "# One\nplain\n  ## Two words  \n####\n#   \n### T\n".data =
      [{ level := 1, title := "One".data }, { level := 2, title := "Two words".data },
       { level := 3, title := "T".data }] := by decide

/-- Evaluation check: pathlib suffixes of edge-case names. -/
theorem pySuffix_eval :
    pySuffix "a.py".data = ".py".data ∧ pySuffix ".py".data = [] ∧
      pySuffix "a.b.py".data = ".py".data ∧ pySuffix "foo.".data = [] := by decide
